import Mathlib

/-!
# Verification of the git-mcp tool layer

A shallow embedding of `main.go` and `tool.go` of the git-mcp server, together
with a model, taken from the specification, of the parts the Go code delegates
to the go-git library (commit objects, tree patches, line diffs).

Conventions of the embedding:
* MCP argument maps become association lists of `MCPValue`; a JSON number is
  carried as the `Int` it truncates to, since every code path at once applies
  Go's `int(val)` truncation.
* `time.Time` is modelled by its calendar components (year, month, day) plus
  the pre-rendered long-layout string that `Format("Mon Jan 2 15:04:05 2006 -0700")`
  produces, carried as an opaque field of the commit author data.
* A repository is the result of resolving HEAD: either an error string or the
  HEAD `Commit`, whose first-parent chain is embedded structurally.
* go-git's `Tree.Patch` and its Myers line diff are not part of this
  repository; they are modelled from the specification (§4.3, §4.4) as a
  path-sorted structural tree diff whose per-file chunks come from an
  LCS-based line differ.
-/

namespace GitMcp

/-- One MCP argument value as delivered by JSON decoding: a number (already
truncated to `Int` as `int(val)` does), a string, or a boolean. -/
inductive MCPValue where
  | num (x : Int)
  | str (s : String)
  | bool (b : Bool)
deriving DecidableEq

/-- The `map[string]interface{}` of request arguments. -/
def Args := List (String × MCPValue)

/-- Lookup of a key in the argument map. -/
def lookupArg (args : Args) (k : String) : Option MCPValue :=
  match args with
  | [] => none
  | (k', v) :: rest => if k' = k then some v else lookupArg rest k

/-- `getNumber` from tool.go: the `float64` type assertion truncated by
`int(val)`, yielding `0` for a missing or non-numeric value. -/
def getNumber (args : Args) (key : String) : Int :=
  match lookupArg args key with
  | some (.num x) => x
  | _ => 0

/-- `getString` from tool.go: the `string` type assertion, yielding `""` for a
missing or non-string value. -/
def getString (args : Args) (key : String) : String :=
  match lookupArg args key with
  | some (.str s) => s
  | _ => ""

/-- The `commits_back` handling shared by git-changed-files and git-file-diff:
`getNumber` followed by `if commitsBack == 0 { commitsBack = 10 }`. -/
def effectiveCommitsBack (args : Args) : Int :=
  let commitsBack := getNumber args "commits_back"
  if commitsBack = 0 then 10 else commitsBack

/-- The directory chosen by `getRepository` in tool.go:
`os.Getenv("CLIENT_WORKDIR")`, falling back to `os.Getenv("WORKDIR")` when it
is empty.  `env` is the current process environment (`""` for unset). -/
def getRepositoryDir (env : String → String) : String :=
  let dir := env "CLIENT_WORKDIR"
  if dir = "" then env "WORKDIR" else dir

/-! ## Line splitting and the line differ

tool.go delegates line diffing to go-git.  The differ below is modelled from
the specification: split into lines keeping each terminator, then an
LCS-based edit script over the line lists.  Fuel makes the recursion
structural; the fuel budget `|xs| + |ys|` is never exhausted because every
step shortens the combined input. -/

/-- Split a character list into lines, each line keeping its `'\n'`
terminator; a final line without a terminator is kept as-is. -/
def splitLines : List Char → List (List Char)
  | [] => []
  | c :: cs =>
    if c = '\n' then [c] :: splitLines cs
    else
      match splitLines cs with
      | [] => [[c]]
      | l :: ls => (c :: l) :: ls

/-- One element of a line-level edit script. -/
inductive LineEdit (α : Type) where
  | equal (x : α)
  | ins (x : α)
  | del (x : α)
deriving DecidableEq

/-- Length of a longest common subsequence, with structural fuel. -/
def lcsLenF [DecidableEq α] : Nat → List α → List α → Nat
  | 0, _, _ => 0
  | _ + 1, [], _ => 0
  | _ + 1, _ :: _, [] => 0
  | f + 1, x :: xs, y :: ys =>
    if x = y then lcsLenF f xs ys + 1
    else max (lcsLenF f (x :: xs) ys) (lcsLenF f xs (y :: ys))

/-- Length of a longest common subsequence. -/
def lcsLen [DecidableEq α] (xs ys : List α) : Nat :=
  lcsLenF (xs.length + ys.length) xs ys

/-- LCS-guided edit script with structural fuel; exhausted fuel falls back to
a full replacement, which still satisfies the reconstruction laws. -/
def diffF [DecidableEq α] : Nat → List α → List α → List (LineEdit α)
  | 0, xs, ys => xs.map LineEdit.del ++ ys.map LineEdit.ins
  | _ + 1, [], ys => ys.map LineEdit.ins
  | f + 1, x :: xs, [] => LineEdit.del x :: diffF f xs []
  | f + 1, x :: xs, y :: ys =>
    if x = y then LineEdit.equal x :: diffF f xs ys
    else if lcsLen xs (y :: ys) ≥ lcsLen (x :: xs) ys then
      LineEdit.del x :: diffF f xs (y :: ys)
    else
      LineEdit.ins y :: diffF f (x :: xs) ys

/-- The edit script between two line lists. -/
def diffList [DecidableEq α] (xs ys : List α) : List (LineEdit α) :=
  diffF (xs.length + ys.length) xs ys

/-- `diffLines` of the specification: the line edit script between two file
contents, lines keeping their terminators. -/
def diffLines (oldContent newContent : String) : List (LineEdit (List Char)) :=
  diffList (splitLines oldContent.data) (splitLines newContent.data)

/-- The Equal and Delete lines of an edit script, in order. -/
def sourceLines : List (LineEdit α) → List α
  | [] => []
  | .equal x :: es => x :: sourceLines es
  | .del x :: es => x :: sourceLines es
  | .ins _ :: es => sourceLines es

/-- The Equal and Insert lines of an edit script, in order. -/
def targetLines : List (LineEdit α) → List α
  | [] => []
  | .equal x :: es => x :: targetLines es
  | .ins x :: es => x :: targetLines es
  | .del _ :: es => targetLines es

/-! ## Commits and repositories

The commit graph.  Only the first parent is walked by tool.go
(`commit.Parent(0)`), so the first parent is a structural field and the
remaining parents of a merge commit are carried as a list. -/

/-- The metadata of one commit, as tool.go reads it from go-git: hash, author
name and email, the author `When` timestamp (calendar components plus the
pre-rendered `Mon Jan 2 15:04:05 2006 -0700` layout string), the full message,
and the commit's tree flattened to `(path, blob content)` pairs. -/
structure CommitData where
  hash : String
  authorName : String
  authorEmail : String
  whenYear : Nat
  whenMonth : Nat
  whenDay : Nat
  whenFull : String
  message : String
  tree : List (String × String)

/-- A commit: either a root (0 parents) or a commit with a first parent and
the remaining parents. -/
inductive Commit where
  | root (data : CommitData)
  | child (data : CommitData) (parent0 : Commit) (rest : List Commit)

/-- The metadata of a commit. -/
def Commit.data : Commit → CommitData
  | .root d => d
  | .child d _ _ => d

/-- The parent list of a commit (`Commit.Parents`). -/
def Commit.parents : Commit → List Commit
  | .root _ => []
  | .child _ p ps => p :: ps

/-- `NumParents` of go-git. -/
def Commit.numParents (c : Commit) : Nat := c.parents.length

/-- First-parent distance from a commit to the root. -/
def Commit.depth : Commit → Nat
  | .root _ => 0
  | .child _ p _ => p.depth + 1

/-- The nth first-parent ancestor, the mathematical reference for
`getCommitFromHead`: `none` when `n` exceeds the depth. -/
def Commit.nthAnc : Commit → Nat → Option Commit
  | c, 0 => some c
  | .root _, _ + 1 => none
  | .child _ p _, n + 1 => p.nthAnc n

/-- The sequence of commits produced by iterating `r.Log` from a commit,
following first parents until the root. -/
def commitList : Commit → List Commit
  | .root d => [.root d]
  | .child d p ps => .child d p ps :: commitList p

/-- A repository handle as tool.go uses it: the result of resolving HEAD to a
commit (an error string when `r.Head()` fails, e.g. no commits yet). -/
structure Repo where
  headResult : Except String Commit

/-- The process state visible to a tool invocation: the current environment
and the repositories `git.PlainOpen` finds at each directory. -/
structure World where
  env : String → String
  openRepo : String → Except String Repo

/-- `getRepository` from tool.go: re-reads the environment on every call and
opens the repository at the resolved directory. -/
def getRepository (w : World) : Except String Repo :=
  w.openRepo (getRepositoryDir w.env)

/-- The walk of `getCommitFromHead`: step to `Parent(0)` n times, failing when
a 0-parent commit is reached first.  `total` is the requested count used in
the error message. -/
def walkBackAux (total : Int) : Commit → Nat → Except String Commit
  | c, 0 => .ok c
  | .root _, _ + 1 =>
      .error ("reached root commit before going back " ++ toString total ++ " commits")
  | .child _ p _, n + 1 => walkBackAux total p n

/-- `getCommitFromHead` from tool.go: resolve HEAD, then walk back
`commitsBack` first parents (the Go `for` loop runs `max commitsBack 0`
times). -/
def getCommitFromHead (r : Repo) (commitsBack : Int) : Except String Commit :=
  match r.headResult with
  | .error e => .error ("error getting HEAD: " ++ e)
  | .ok head => walkBackAux commitsBack head commitsBack.toNat

/-- Zero-pad a number to two digits, as Go's `01`/`02` layout verbs do. -/
def pad2 (n : Nat) : String :=
  if n < 10 then "0" ++ toString n else toString n

/-- Zero-pad a year to four digits, as Go's `2006` layout verb does. -/
def pad4 (n : Nat) : String :=
  if n < 10 then "000" ++ toString n
  else if n < 100 then "00" ++ toString n
  else if n < 1000 then "0" ++ toString n
  else toString n

/-- `formatDate` from tool.go: `t.Format("2006-01-02")`. -/
def formatDate (y m d : Nat) : String :=
  pad4 y ++ "-" ++ pad2 m ++ "-" ++ pad2 d

/-- The first line of a commit message: `strings.Split(msg, "\n")[0]`. -/
def firstLine (s : String) : String :=
  (s.splitOn "\n").headD ""

/-- `GitCommit` from tool.go. -/
structure GitCommit where
  hash : String
  author : String
  date : String
  message : String
deriving DecidableEq

/-- `GitFileChange` from tool.go. -/
structure GitFileChange where
  path : String
  changeType : String
deriving DecidableEq

/-- The `GitCommit` summary built for one commit in the git-log handler. -/
def toGitCommit (c : Commit) : GitCommit :=
  { hash := c.data.hash
    author := c.data.authorName
    date := formatDate c.data.whenYear c.data.whenMonth c.data.whenDay
    message := firstLine c.data.message }

/-! ## The tree patch, modelled from the specification

go-git's `Tree.Patch` is not part of this repository.  Modelled from the
spec (§4.3): for each path of either flattened tree, in lexicographic path
order, emit a file patch when the path is only in one tree or its blob
content differs; identical content is skipped.  Chunks are the grouped runs
of the line differ. -/

/-- A tree flattened to `(path, blob content)` pairs. -/
def Tree := List (String × String)

/-- Blob lookup by path in a flattened tree. -/
def lookupTree : Tree → String → Option String
  | [], _ => none
  | (q, c) :: rest, p => if q = p then some c else lookupTree rest p

/-- The chunk kinds of go-git's diff package. -/
inductive EditKind where
  | equal
  | add
  | delete
deriving DecidableEq

/-- The kind of one line edit as a chunk kind. -/
def kindOf : LineEdit (List Char) → EditKind
  | .equal _ => .equal
  | .ins _ => .add
  | .del _ => .delete

/-- The text of one line edit. -/
def textOf : LineEdit (List Char) → List Char
  | .equal x => x
  | .ins x => x
  | .del x => x

/-- Group consecutive same-kind line edits into chunks, concatenating their
text, as go-git's chunk representation does. -/
def groupRuns : List (LineEdit (List Char)) → List (EditKind × String)
  | [] => []
  | e :: es =>
    match groupRuns es with
    | [] => [(kindOf e, String.mk (textOf e))]
    | (k, s) :: rest =>
      if kindOf e = k then (k, String.mk (textOf e) ++ s) :: rest
      else (kindOf e, String.mk (textOf e)) :: (k, s) :: rest

/-- The chunks of one file patch: grouped runs of the line differ applied to
the old and new blob contents. -/
def chunksFor (oldContent newContent : String) : List (EditKind × String) :=
  groupRuns (diffLines oldContent newContent)

/-- One file patch: the `from` and `to` file paths (`none` for an added or
deleted file) and the chunk list. -/
structure FilePatch where
  fromFile : Option String
  toFile : Option String
  chunks : List (EditKind × String)
deriving DecidableEq

/-- The file patch for one path, if the path differs between the trees.
Modelled from the spec: absent/present is Added, present/absent is Deleted,
differing blobs are Modified, identical blobs are skipped. -/
def filePatchFor (old new : Tree) (p : String) : Option FilePatch :=
  match lookupTree old p, lookupTree new p with
  | some co, some cn =>
      if co = cn then none
      else some { fromFile := some p, toFile := some p, chunks := chunksFor co cn }
  | some co, none => some { fromFile := some p, toFile := none, chunks := chunksFor co "" }
  | none, some cn => some { fromFile := none, toFile := some p, chunks := chunksFor "" cn }
  | none, none => none

/-- Lexicographic comparison of character lists by code point. -/
def strLeB : List Char → List Char → Bool
  | [], _ => true
  | _ :: _, [] => false
  | x :: xs, y :: ys =>
    if x.toNat < y.toNat then true
    else if y.toNat < x.toNat then false
    else strLeB xs ys

/-- Insert a path into a lexicographically sorted path list. -/
def insertSorted (x : String) : List String → List String
  | [] => [x]
  | y :: ys => if strLeB x.data y.data then x :: y :: ys else y :: insertSorted x ys

/-- Sort a path list lexicographically. -/
def sortPaths (l : List String) : List String :=
  l.foldr insertSorted []

/-- `oldTree.Patch(newTree)` of go-git, modelled from the spec: file patches
for every differing path, in sorted path order. -/
def treePatch (old new : Tree) : List FilePatch :=
  (sortPaths ((old.map Prod.fst ++ new.map Prod.fst).dedup)).filterMap
    (filePatchFor old new)

/-! ## The tool handlers of tool.go

Each handler returns the pair of the `CallToolResult` and the Go-level
`error` return value. -/

/-- `mcp.CallToolResult` restricted to what the handlers build: one text
content and the `IsError` flag. -/
structure CallToolResult where
  content : String
  isError : Bool
deriving DecidableEq

/-- An in-band error result, paired with the `nil` Go error. -/
def errResult (msg : String) : CallToolResult × Option String :=
  ({ content := msg, isError := true }, none)

/-- A success result, paired with the `nil` Go error. -/
def okResult (msg : String) : CallToolResult × Option String :=
  ({ content := msg, isError := false }, none)

/-- The `ForEach` loop of the git-log handler: collect summaries until
`count >= limit` aborts the iteration with the `reached limit` sentinel. -/
def logIterAux (limit : Int) : List Commit → Int → List GitCommit × Option String
  | [], _ => ([], none)
  | c :: rest, count =>
    if count ≥ limit then ([], some "reached limit")
    else
      let r := logIterAux limit rest (count + 1)
      (toGitCommit c :: r.1, r.2)

/-- The summaries collected by the git-log handler for a given limit. -/
def gitLogCommits (limit : Int) (head : Commit) : List GitCommit :=
  (logIterAux limit (commitList head) 0).1

/-- One rendered block of the git-log output. -/
def renderLogBlock (gc : GitCommit) : String :=
  "Commit: " ++ gc.hash ++ "\n" ++
  "Author: " ++ gc.author ++ "\n" ++
  "Date: " ++ gc.date ++ "\n" ++
  "Message: " ++ gc.message ++ "\n" ++
  "----------------------------------------\n"

/-- The full git-log output text. -/
def renderLog (commits : List GitCommit) : String :=
  "Git History:\n\n" ++ String.join (commits.map renderLogBlock)

/-- The `limit` extraction of the git-log handler: `limit := 10`, overridden
by a successful `float64` assertion. -/
def limitOf (args : Args) : Int :=
  match lookupArg args "limit" with
  | some (.num x) => x
  | _ => 10

/-- The git-log handler. -/
def gitLogHandler (w : World) (args : Args) : CallToolResult × Option String :=
  let limit : Int := limitOf args
  match getRepository w with
  | .error e => errResult ("Error opening repository: " ++ e)
  | .ok r =>
    match r.headResult with
    | .error e => errResult ("Error getting HEAD reference: " ++ e)
    | .ok head =>
      let iter := logIterAux limit (commitList head) 0
      match iter.2 with
      | some msg =>
        if msg ≠ "reached limit" then errResult ("Error iterating commits: " ++ msg)
        else okResult (renderLog iter.1)
      | none => okResult (renderLog iter.1)

/-- The from/to classification of the git-changed-files handler: nil/non-nil
is Added, non-nil/nil is Deleted, both non-nil is Modified. -/
def classify (patch : List FilePatch) : List GitFileChange :=
  patch.filterMap fun fp =>
    match fp.fromFile, fp.toFile with
    | none, some t => some { path := t, changeType := "Added" }
    | some f, none => some { path := f, changeType := "Deleted" }
    | some _, some t => some { path := t, changeType := "Modified" }
    | none, none => none

/-- The changed-file list between two trees, as git-changed-files computes
it. -/
def changedFiles (old new : Tree) : List GitFileChange :=
  classify (treePatch old new)

/-- The full git-changed-files output text. -/
def renderChangedFiles (commitsBack : Int) (changes : List GitFileChange) : String :=
  "Files changed in the last " ++ toString commitsBack ++ " commits:\n\n" ++
  String.join (changes.map fun change => "[" ++ change.changeType ++ "] " ++ change.path ++ "\n")

/-- The git-changed-files handler. -/
def gitChangedFilesHandler (w : World) (args : Args) : CallToolResult × Option String :=
  let commitsBack := effectiveCommitsBack args
  match getRepository w with
  | .error e => errResult ("Error opening repository: " ++ e)
  | .ok r =>
    match r.headResult with
    | .error e => errResult ("Error getting HEAD reference: " ++ e)
    | .ok head =>
      match getCommitFromHead r commitsBack with
      | .error e => errResult ("Error getting old commit: " ++ e)
      | .ok oldCommit =>
        okResult (renderChangedFiles commitsBack
          (changedFiles oldCommit.data.tree head.data.tree))

/-- Does a file patch concern the requested path, as the handlers test it:
`from != nil && from.Path() == filePath || to != nil && to.Path() == filePath`. -/
def matchesPath (fp : FilePatch) (filePath : String) : Bool :=
  fp.fromFile = some filePath || fp.toFile = some filePath

/-- Render the chunks of one file patch: each chunk prefixed once by `+`,
`-`, or a space according to its kind. -/
def renderChunks : List (EditKind × String) → String
  | [] => ""
  | (k, s) :: rest =>
    (match k with
     | .add => "+" ++ s
     | .delete => "-" ++ s
     | .equal => " " ++ s) ++ renderChunks rest

/-- The diff text the git-file-diff handler accumulates: the chunks of the
first file patch whose from- or to-path matches, empty when none matches. -/
def renderFileDiff (patch : List FilePatch) (filePath : String) : String :=
  match patch.find? (fun fp => matchesPath fp filePath) with
  | none => ""
  | some fp => renderChunks fp.chunks

/-- The git-file-diff handler. -/
def gitFileDiffHandler (w : World) (args : Args) : CallToolResult × Option String :=
  let filePath := getString args "file_path"
  if filePath = "" then errResult "Error: file_path parameter is required"
  else
    let commitsBack := effectiveCommitsBack args
    match getRepository w with
    | .error e => errResult ("Error opening repository: " ++ e)
    | .ok r =>
      match r.headResult with
      | .error e => errResult ("Error getting HEAD reference: " ++ e)
      | .ok head =>
        match getCommitFromHead r commitsBack with
        | .error e => errResult ("Error getting old commit: " ++ e)
        | .ok oldCommit =>
          let fileDiff := renderFileDiff (treePatch oldCommit.data.tree head.data.tree) filePath
          if fileDiff = "" then okResult ("No changes found for file: " ++ filePath)
          else okResult fileDiff

/-- `strings.ReplaceAll(msg, "\n", "\n    ")` on the character list. -/
def indentMessage : List Char → List Char
  | [] => []
  | c :: cs =>
    if c = '\n' then '\n' :: ' ' :: ' ' :: ' ' :: ' ' :: indentMessage cs
    else c :: indentMessage cs

/-- The summary block the git-file-history handler writes for every commit. -/
def summaryBlock (c : Commit) : String :=
  "commit " ++ c.data.hash ++ "\n" ++
  "Author: " ++ c.data.authorName ++ " <" ++ c.data.authorEmail ++ ">\n" ++
  "Date:   " ++ c.data.whenFull ++ "\n\n" ++
  "    " ++ String.mk (indentMessage c.data.message.data) ++ "\n\n"

/-- The diff block the git-file-history handler writes under a commit `c`
when a previously visited (more recent) commit `prev` exists: the first
matching file patch of `currTree.Patch(prevTree)`, with its new/deleted file
header lines, and nothing when the path does not appear in that patch. -/
def diffBlock (filePath : String) (c prev : Commit) : String :=
  match (treePatch c.data.tree prev.data.tree).find? (fun fp => matchesPath fp filePath) with
  | none => ""
  | some fp =>
    (if fp.fromFile = none then
      "diff --git a/" ++ filePath ++ " b/" ++ filePath ++ "\n" ++ "new file mode 100644\n"
     else if fp.toFile = none then
      "diff --git a/" ++ filePath ++ " b/" ++ filePath ++ "\n" ++ "deleted file mode 100644\n"
     else
      "diff --git a/" ++ filePath ++ " b/" ++ filePath ++ "\n") ++
    renderChunks fp.chunks

/-- The `ForEach` loop of the git-file-history handler: every commit's
summary block, followed by its diff block whenever a previous (more recent)
commit exists. -/
def fileHistoryGo (filePath : String) : Option Commit → List Commit → String
  | _, [] => ""
  | prev, c :: rest =>
    summaryBlock c ++
    (match prev with
     | none => ""
     | some p => diffBlock filePath c p) ++
    fileHistoryGo filePath (some c) rest

/-- The git-file-history handler. -/
def gitFileHistoryHandler (w : World) (args : Args) : CallToolResult × Option String :=
  let filePath := getString args "file_path"
  if filePath = "" then errResult "Error: file_path parameter is required"
  else
    match getRepository w with
    | .error e => errResult ("Error opening repository: " ++ e)
    | .ok r =>
      match r.headResult with
      | .error e => errResult ("Error getting HEAD reference: " ++ e)
      | .ok head =>
        let result := fileHistoryGo filePath none (commitList head)
        if result = "" then okResult ("No history found for file: " ++ filePath)
        else okResult result

/-! ## Substring containment -/

/-- Does `needle` occur as a contiguous substring of `hay`? -/
def containsStr (hay needle : String) : Bool :=
  decide (needle.data <:+: hay.data)

/-! ## Concrete fixtures

A small linear repository in the shape of the specification's test scenario
(§8): a root commit `d0` and a HEAD commit `d1` that modifies `a.txt` and
leaves `b.txt` unchanged, plus variants used by individual claims. -/

/-- Root commit metadata: `a.txt = "hello\n"`, `b.txt = "x\n"`. -/
def d0 : CommitData :=
  { hash := "1111111111111111111111111111111111111111"
    authorName := "Alice"
    authorEmail := "alice@example.com"
    whenYear := 2024
    whenMonth := 3
    whenDay := 20
    whenFull := "Wed Mar 20 10:00:00 2024 -0700"
    message := "initial commit"
    tree := [("a.txt", "hello\n"), ("b.txt", "x\n")] }

/-- HEAD commit metadata: modifies `a.txt`, leaves `b.txt` unchanged. -/
def d1 : CommitData :=
  { hash := "2222222222222222222222222222222222222222"
    authorName := "Bob"
    authorEmail := "bob@example.com"
    whenYear := 2024
    whenMonth := 3
    whenDay := 21
    whenFull := "Thu Mar 21 11:00:00 2024 -0700"
    message := "add world\n\nsecond line"
    tree := [("a.txt", "hello\nworld\n"), ("b.txt", "x\n")] }

/-- The HEAD commit of the two-commit repository. -/
def cHeadW : Commit := .child d1 (.root d0) []

/-- The two-commit repository. -/
def rW : Repo := { headResult := .ok cHeadW }

/-- A one-commit repository (root only). -/
def rOne : Repo := { headResult := .ok (.root d0) }

/-- An environment with only `WORKDIR` set. -/
def envA : String → String :=
  fun k => if k = "WORKDIR" then "/repo-a" else ""

/-- An extensionally `envA`-equal environment defined differently. -/
def envA2 : String → String :=
  fun k => if k = "PATH" then "/usr/bin" else if k = "WORKDIR" then "/repo-a" else ""

/-- `envA` after `CLIENT_WORKDIR` was set between two invocations. -/
def envB : String → String :=
  fun k =>
    if k = "CLIENT_WORKDIR" then "/repo-b"
    else if k = "WORKDIR" then "/repo-a" else ""

/-- The process state for the two-commit repository. -/
def wLog : World := { env := envA, openRepo := fun _ => .ok rW }

/-- The process state for the one-commit repository. -/
def wOne : World := { env := envA, openRepo := fun _ => .ok rOne }

/-- A process state where opening the repository fails. -/
def wBadOpen : World := { env := envA, openRepo := fun _ => .error "repository does not exist" }

/-- A process state where HEAD resolution fails (repository with no commits). -/
def wNoHead : World := { env := envA, openRepo := fun _ => .ok { headResult := .error "reference not found" } }

/-- A world whose repository lookup reports the directory it was asked for. -/
def wEnvA : World := { env := envA, openRepo := fun d => .error d }

/-- `wEnvA` after the environment change to `envB`; same repository lookup. -/
def wEnvB : World := { env := envB, openRepo := fun d => .error d }

/-- Root commit metadata of a repository that never contained `b.txt`. -/
def dG0 : CommitData := { d0 with tree := [("a.txt", "hello\n")] }

/-- HEAD commit metadata of the repository that never contained `b.txt`. -/
def dG1 : CommitData := { d1 with tree := [("a.txt", "hello\nworld\n")] }

/-- A repository whose history never contained `b.txt`. -/
def rG : Repo :=
  { headResult := .ok (.child dG1 (.root dG0) []) }

/-- The process state for the repository without `b.txt`. -/
def wG : World := { env := envA, openRepo := fun _ => .ok rG }

/-- An old tree with one file to keep-and-modify and one file to delete. -/
def oldT : Tree := [("keep.txt", "x\n"), ("gone.txt", "y\n")]

/-- A new tree that modifies `keep.txt`, drops `gone.txt`, adds `new.txt`. -/
def newT : Tree := [("keep.txt", "x2\n"), ("new.txt", "z\n")]

/-- Arguments with a negative limit. -/
def argsNeg : Args := [("limit", .num (-1))]

/-- Arguments with `commits_back = 0`. -/
def argsCB0 : Args := [("commits_back", .num 0)]

/-- Arguments with `commits_back = 1`. -/
def argsCB1 : Args := [("commits_back", .num 1)]

/-- Arguments with a non-numeric `commits_back`. -/
def argsCBStr : Args := [("commits_back", .str "ten")]

/-- git-file-diff arguments for `b.txt`, one commit back. -/
def argsBD : Args := [("file_path", .str "b.txt"), ("commits_back", .num 1)]

/-- git-file-diff arguments for `a.txt`, one commit back. -/
def argsAD : Args := [("file_path", .str "a.txt"), ("commits_back", .num 1)]

/-- git-file-history arguments for `b.txt`. -/
def argsBH : Args := [("file_path", .str "b.txt")]

/-! ## Helper lemmas for the line differ -/

theorem splitLines_flatten (cs : List Char) : (splitLines cs).flatten = cs := by
  induction cs with
  | nil => rfl
  | cons c cs ih =>
    by_cases h : c = '\n'
    · simp [splitLines, h, List.flatten]
      exact ih
    · simp only [splitLines, if_neg h]
      cases hs : splitLines cs with
      | nil =>
        rw [hs] at ih
        simp [List.flatten] at ih ⊢
        exact ih
      | cons l ls =>
        rw [hs] at ih
        simp [List.flatten] at ih ⊢
        exact ih

theorem sourceLines_append (a b : List (LineEdit α)) :
    sourceLines (a ++ b) = sourceLines a ++ sourceLines b := by
  induction a with
  | nil => rfl
  | cons e es ih => cases e <;> simp [sourceLines, ih]

theorem targetLines_append (a b : List (LineEdit α)) :
    targetLines (a ++ b) = targetLines a ++ targetLines b := by
  induction a with
  | nil => rfl
  | cons e es ih => cases e <;> simp [targetLines, ih]

theorem sourceLines_map_del (xs : List α) :
    sourceLines (xs.map LineEdit.del) = xs := by
  induction xs with
  | nil => rfl
  | cons x xs ih => simp [sourceLines, ih]

theorem sourceLines_map_ins (ys : List α) :
    sourceLines (ys.map LineEdit.ins) = [] := by
  induction ys with
  | nil => rfl
  | cons y ys ih => simp [sourceLines, ih]

theorem targetLines_map_ins (ys : List α) :
    targetLines (ys.map LineEdit.ins) = ys := by
  induction ys with
  | nil => rfl
  | cons y ys ih => simp [targetLines, ih]

theorem targetLines_map_del (xs : List α) :
    targetLines (xs.map LineEdit.del) = [] := by
  induction xs with
  | nil => rfl
  | cons x xs ih => simp [targetLines, ih]

theorem sourceLines_diffF [DecidableEq α] (f : Nat) (xs ys : List α) :
    sourceLines (diffF f xs ys) = xs := by
  induction f generalizing xs ys with
  | zero => simp [diffF, sourceLines_append, sourceLines_map_del, sourceLines_map_ins]
  | succ f ih =>
    cases xs with
    | nil => simp [diffF, sourceLines_map_ins]
    | cons x xs =>
      cases ys with
      | nil => simp [diffF, sourceLines, ih]
      | cons y ys =>
        by_cases h : x = y
        · simp [diffF, h, sourceLines, ih]
        · by_cases h2 : lcsLen xs (y :: ys) ≥ lcsLen (x :: xs) ys
          · simp [diffF, h, h2, sourceLines, ih]
          · simp [diffF, h, h2, sourceLines, ih]

theorem targetLines_diffF [DecidableEq α] (f : Nat) (xs ys : List α) :
    targetLines (diffF f xs ys) = ys := by
  induction f generalizing xs ys with
  | zero => simp [diffF, targetLines_append, targetLines_map_del, targetLines_map_ins]
  | succ f ih =>
    cases xs with
    | nil => simp [diffF, targetLines_map_ins]
    | cons x xs =>
      cases ys with
      | nil => simp [diffF, targetLines, ih]
      | cons y ys =>
        by_cases h : x = y
        · simp [diffF, h, targetLines, ih]
        · by_cases h2 : lcsLen xs (y :: ys) ≥ lcsLen (x :: xs) ys
          · simp [diffF, h, h2, targetLines, ih]
          · simp [diffF, h, h2, targetLines, ih]

theorem sourceLines_diffList [DecidableEq α] (xs ys : List α) :
    sourceLines (diffList xs ys) = xs :=
  sourceLines_diffF _ xs ys

theorem targetLines_diffList [DecidableEq α] (xs ys : List α) :
    targetLines (diffList xs ys) = ys :=
  targetLines_diffF _ xs ys

/-- C8: for all pairs of file contents, the line diff used by git-file-diff is
a sequence of Equal/Insert/Delete edits whose Equal+Delete lines concatenate
to exactly the old content and whose Equal+Insert lines concatenate to
exactly the new content, terminator presence included. -/
theorem diffLines_reconstructs (oldContent newContent : String) :
    String.mk (sourceLines (diffLines oldContent newContent)).flatten = oldContent ∧
    String.mk (targetLines (diffLines oldContent newContent)).flatten = newContent := by
  constructor
  · apply String.ext
    show (sourceLines (diffLines oldContent newContent)).flatten = oldContent.data
    rw [diffLines, sourceLines_diffList, splitLines_flatten]
  · apply String.ext
    show (targetLines (diffLines oldContent newContent)).flatten = newContent.data
    rw [diffLines, targetLines_diffList, splitLines_flatten]

/-! ## The first-parent walk -/

theorem walkBackAux_le (total : Int) (c : Commit) (n : Nat) (h : n ≤ c.depth) :
    ∃ a, walkBackAux total c n = .ok a ∧ c.nthAnc n = some a := by
  induction n generalizing c with
  | zero => exact ⟨c, by cases c <;> rfl, by cases c <;> rfl⟩
  | succ n ih =>
    cases c with
    | root d => simp [Commit.depth] at h
    | child d p ps =>
      have hp : n ≤ p.depth := by
        simp [Commit.depth] at h
        omega
      obtain ⟨a, h1, h2⟩ := ih p hp
      exact ⟨a, h1, h2⟩

theorem walkBackAux_gt (total : Int) (c : Commit) (n : Nat) (h : c.depth < n) :
    walkBackAux total c n =
      .error ("reached root commit before going back " ++ toString total ++ " commits") := by
  induction n generalizing c with
  | zero => omega
  | succ n ih =>
    cases c with
    | root d => rfl
    | child d p ps =>
      have hp : p.depth < n := by
        simp [Commit.depth] at h
        omega
      exact ih p hp

theorem walkBackAux_of_nthAnc (total : Int) (c : Commit) (n : Nat) (a : Commit)
    (h : c.nthAnc n = some a) : walkBackAux total c n = .ok a := by
  induction n generalizing c with
  | zero =>
    simp [Commit.nthAnc] at h
    rw [← h]
    cases c <;> rfl
  | succ n ih =>
    cases c with
    | root d => simp [Commit.nthAnc] at h
    | child d p ps => exact ih p h

/-- C4: for a starting commit at first-parent distance `d` from a 0-parent
root, `getCommitFromHead` returns exactly the nth first-parent ancestor when
`n ≤ d` and fails with the reached-root error when `n > d`; it never returns
a wrong commit. -/
theorem getCommitFromHead_correct (r : Repo) (head : Commit) (n : Nat)
    (h : r.headResult = .ok head) :
    (n ≤ head.depth →
      ∃ a, getCommitFromHead r (n : Int) = .ok a ∧ head.nthAnc n = some a) ∧
    (head.depth < n →
      getCommitFromHead r (n : Int) =
        .error ("reached root commit before going back " ++ toString (n : Int) ++ " commits")) := by
  constructor
  · intro hle
    have := walkBackAux_le (n : Int) head n hle
    simpa [getCommitFromHead, h, Int.toNat_natCast] using this
  · intro hgt
    have := walkBackAux_gt (n : Int) head n hgt
    simp [getCommitFromHead, h, Int.toNat_natCast]
    exact this

/-- Witness for C4 on the two-commit repository: one step back succeeds and
matches the first-parent ancestor, two steps back hits the root error. -/
theorem getCommitFromHead_correct_witness :
    (∃ a, getCommitFromHead rW ((1 : Nat) : Int) = .ok a ∧ cHeadW.nthAnc 1 = some a) ∧
    getCommitFromHead rW ((2 : Nat) : Int) =
      .error ("reached root commit before going back " ++ toString ((2 : Nat) : Int) ++ " commits") :=
  ⟨(getCommitFromHead_correct rW cHeadW 1 rfl).1 (by decide),
   (getCommitFromHead_correct rW cHeadW 2 rfl).2 (by decide)⟩

/-- C9: for git-changed-files and git-file-diff (both of which compute their
commit count as `effectiveCommitsBack`), a `commits_back` argument that is
omitted, non-numeric, or equal to `0` is treated as `10`. -/
theorem commitsBack_default (args : Args) :
    (lookupArg args "commits_back" = none → effectiveCommitsBack args = 10) ∧
    (∀ s, lookupArg args "commits_back" = some (.str s) → effectiveCommitsBack args = 10) ∧
    (lookupArg args "commits_back" = some (.num 0) → effectiveCommitsBack args = 10) := by
  refine ⟨fun h => ?_, fun s h => ?_, fun h => ?_⟩ <;>
    simp [effectiveCommitsBack, getNumber, h]

/-- Witness for C9 at concrete argument maps: omitted, non-numeric, and zero
`commits_back` all resolve to 10. -/
theorem commitsBack_default_witness :
    effectiveCommitsBack ([] : Args) = 10 ∧
    effectiveCommitsBack argsCBStr = 10 ∧
    effectiveCommitsBack argsCB0 = 10 :=
  ⟨(commitsBack_default ([] : Args)).1 rfl,
   (commitsBack_default argsCBStr).2.1 "ten" rfl,
   (commitsBack_default argsCB0).2.2 rfl⟩

/-- Counterexample to C6: two invocations of the same process whose
repository lookup is identical but whose environment changed in between
(`CLIENT_WORKDIR` set) resolve different directories and open different
repositories, so the location is not fixed once per process lifetime. -/
theorem repositoryDir_env_sensitive :
    wEnvA.openRepo = wEnvB.openRepo ∧
    getRepositoryDir wEnvA.env = "/repo-a" ∧
    getRepositoryDir wEnvB.env = "/repo-b" ∧
    (gitLogHandler wEnvA []).1.content ≠ (gitLogHandler wEnvB []).1.content :=
  ⟨rfl, by decide, by decide, by decide⟩

/-- C6 amended: the repository directory is re-resolved from the environment
on every invocation (`getRepository` applies the current environment); two
invocations whose environments agree on `CLIENT_WORKDIR` and `WORKDIR` open
the same repository directory, but an environment change between invocations
changes the directory. -/
theorem repositoryDir_of_env (e1 e2 : String → String)
    (h1 : e1 "CLIENT_WORKDIR" = e2 "CLIENT_WORKDIR")
    (h2 : e1 "WORKDIR" = e2 "WORKDIR") :
    getRepositoryDir e1 = getRepositoryDir e2 ∧
    ∀ w : World, getRepository w = w.openRepo (getRepositoryDir w.env) := by
  refine ⟨?_, fun _ => rfl⟩
  simp [getRepositoryDir, h1, h2]

/-- Witness for C6 amended: two extensionally different environment functions
with equal `CLIENT_WORKDIR` and `WORKDIR` resolve the same directory. -/
theorem repositoryDir_of_env_witness :
    getRepositoryDir envA = getRepositoryDir envA2 :=
  (repositoryDir_of_env envA envA2 (by decide) (by decide)).1

/-! ## git-log -/

theorem logIterAux_eq (limit : Int) (l : List Commit) (k : Int) :
    logIterAux limit l k =
      ((l.take (limit - k).toNat).map toGitCommit,
       if (limit - k).toNat < l.length then some "reached limit" else none) := by
  induction l generalizing k with
  | nil => simp [logIterAux]
  | cons c rest ih =>
    by_cases h : k ≥ limit
    · have h0 : (limit - k).toNat = 0 := by omega
      simp [logIterAux, h, h0]
    · have h1 : (limit - k).toNat = (limit - (k + 1)).toNat + 1 := by omega
      simp only [logIterAux, if_neg h, ih (k + 1)]
      rw [h1]
      simp [Nat.succ_lt_succ_iff]

/-- C5 (amended): git-log defaults an absent limit to 10, returns a success
whose summaries are the first `max(limit, 0)` commits of the first-parent
iteration (so exactly `min(max(limit, 0), N)` of them — a negative limit
yields zero), each carrying the hash, the author name, the `YYYY-MM-DD`
date, and the first message line; the limit sentinel is never surfaced as an
error. -/
theorem gitLog_correct (w : World) (r : Repo) (head : Commit) (args : Args)
    (hr : getRepository w = .ok r) (hh : r.headResult = .ok head) :
    (gitLogHandler w args).2 = none ∧
    (gitLogHandler w args).1.isError = false ∧
    (gitLogHandler w args).1.content = renderLog (gitLogCommits (limitOf args) head) ∧
    (lookupArg args "limit" = none → limitOf args = 10) ∧
    gitLogCommits (limitOf args) head =
      ((commitList head).take (limitOf args).toNat).map toGitCommit ∧
    (gitLogCommits (limitOf args) head).length =
      min (limitOf args).toNat (commitList head).length ∧
    ∀ gc ∈ gitLogCommits (limitOf args) head, ∃ c ∈ commitList head,
      gc = { hash := c.data.hash
             author := c.data.authorName
             date := formatDate c.data.whenYear c.data.whenMonth c.data.whenDay
             message := firstLine c.data.message } := by
  have hiter := logIterAux_eq (limitOf args) (commitList head) 0
  have hcommits : gitLogCommits (limitOf args) head =
      ((commitList head).take (limitOf args).toNat).map toGitCommit := by
    rw [gitLogCommits, hiter]
    simp
  have hhandler : gitLogHandler w args = okResult (renderLog (gitLogCommits (limitOf args) head)) := by
    simp only [gitLogHandler, hr, hh]
    rw [gitLogCommits, hiter]
    simp only [Int.sub_zero]
    by_cases hc : (limitOf args).toNat < (commitList head).length <;> simp [hc]
  refine ⟨by rw [hhandler]; rfl, by rw [hhandler]; rfl, by rw [hhandler]; rfl, ?_, hcommits, ?_, ?_⟩
  · intro h
    simp [limitOf, h]
  · rw [hcommits]
    simp [List.length_take]
  · intro gc hgc
    rw [hcommits] at hgc
    obtain ⟨c, hc, rfl⟩ := List.mem_map.mp hgc
    exact ⟨c, List.take_subset _ _ hc, rfl⟩

/-- Witness for C5 amended on the two-commit repository with no limit
argument. -/
theorem gitLog_correct_witness :
    (gitLogHandler wLog []).2 = none ∧
    (gitLogHandler wLog []).1.isError = false ∧
    (gitLogCommits (limitOf ([] : Args)) cHeadW).length =
      min (limitOf ([] : Args)).toNat (commitList cHeadW).length := by
  have h := gitLog_correct wLog rW cHeadW [] rfl rfl
  exact ⟨h.1, h.2.1, h.2.2.2.2.2.1⟩

/-- Counterexample to C5 as stated: a `limit` of `-1` on a one-commit
repository yields a success with zero summaries, but `min(limit, N)` is
`-1`, so the result does not contain exactly `min(limit, N)` summaries. -/
theorem gitLog_negative_limit :
    (gitLogHandler wOne argsNeg).1.isError = false ∧
    ((gitLogCommits (limitOf argsNeg) (.root d0)).length : Int) ≠
      min (limitOf argsNeg) ((commitList (.root d0)).length : Int) := by
  constructor
  · decide
  · decide

/-! ## git-changed-files -/

/-- Counterexample to C2 as stated: `commits_back = 0` on a one-commit
repository does not compare HEAD against itself with an empty change set; it
is replaced by the default 10 and the request fails with the reached-root
error. -/
theorem changedFiles_zero_back :
    (gitChangedFilesHandler wOne argsCB0).1.isError = true ∧
    (gitChangedFilesHandler wOne argsCB0).1.content =
      "Error getting old commit: reached root commit before going back 10 commits" := by
  constructor
  · decide
  · decide

/-- C2 (amended): for every `commits_back ≥ 1`, git-changed-files returns a
success listing the `FileChange` set between the `commits_back`-th
first-parent ancestor of HEAD and HEAD; `commits_back = 0` is instead
replaced by the default 10 before the walk. -/
theorem gitChangedFiles_correct (w : World) (r : Repo) (head anc : Commit)
    (args : Args) (n : Int)
    (hr : getRepository w = .ok r) (hh : r.headResult = .ok head)
    (hn : getNumber args "commits_back" = n) (h1 : 1 ≤ n)
    (ha : head.nthAnc n.toNat = some anc) :
    gitChangedFilesHandler w args =
      okResult (renderChangedFiles n (changedFiles anc.data.tree head.data.tree)) := by
  have hne : ¬(n = 0) := by omega
  have hw := walkBackAux_of_nthAnc n head n.toNat anc ha
  simp [gitChangedFilesHandler, hr, hh, effectiveCommitsBack, hn, hne,
    getCommitFromHead, hw]

/-- Witness for C2 amended: one commit back on the two-commit repository
diffs the root tree against the HEAD tree. -/
theorem gitChangedFiles_correct_witness :
    gitChangedFilesHandler wLog argsCB1 =
      okResult (renderChangedFiles 1
        (changedFiles (Commit.root d0).data.tree cHeadW.data.tree)) :=
  gitChangedFiles_correct wLog rW cHeadW (.root d0) argsCB1 1 rfl rfl rfl
    (by decide) rfl

/-! ## Tree diff classification -/

theorem mem_insertSorted (a x : String) (l : List String) :
    a ∈ insertSorted x l ↔ a = x ∨ a ∈ l := by
  induction l with
  | nil => simp [insertSorted]
  | cons y ys ih =>
    by_cases h : strLeB x.data y.data = true
    · simp [insertSorted, h]
    · simp [insertSorted, h, ih]
      tauto

theorem mem_sortPaths (a : String) (l : List String) (h : a ∈ l) :
    a ∈ sortPaths l := by
  induction l with
  | nil => cases h
  | cons x xs ih =>
    have hs : sortPaths (x :: xs) = insertSorted x (sortPaths xs) := rfl
    rw [hs, mem_insertSorted]
    rcases List.mem_cons.mp h with h1 | h2
    · exact Or.inl h1
    · exact Or.inr (ih h2)

theorem lookupTree_mem_fst (t : Tree) (p c : String) (h : lookupTree t p = some c) :
    p ∈ t.map Prod.fst := by
  induction t with
  | nil => simp [lookupTree] at h
  | cons e rest ih =>
    obtain ⟨q, cq⟩ := e
    by_cases hq : q = p
    · simp [hq]
    · simp only [lookupTree, if_neg hq] at h
      simp [ih h]

theorem filePatchFor_mem (old new : Tree) (p : String) (fp : FilePatch)
    (hp : p ∈ old.map Prod.fst ++ new.map Prod.fst)
    (hf : filePatchFor old new p = some fp) :
    fp ∈ treePatch old new :=
  List.mem_filterMap.mpr
    ⟨p, mem_sortPaths _ _ (List.mem_dedup.mpr hp), hf⟩

/-- C7: in the tree diff reported by git-changed-files, a path absent in the
old tree and present in the new is classified Added, present in the old and
absent in the new is Deleted, and present in both with differing blob
content is Modified. -/
theorem changedFiles_classification (old new : Tree) (p : String) :
    (∀ cn, lookupTree old p = none → lookupTree new p = some cn →
      ({ path := p, changeType := "Added" } : GitFileChange) ∈ changedFiles old new) ∧
    (∀ co, lookupTree old p = some co → lookupTree new p = none →
      ({ path := p, changeType := "Deleted" } : GitFileChange) ∈ changedFiles old new) ∧
    (∀ co cn, lookupTree old p = some co → lookupTree new p = some cn → co ≠ cn →
      ({ path := p, changeType := "Modified" } : GitFileChange) ∈ changedFiles old new) := by
  refine ⟨fun cn h1 h2 => ?_, fun co h1 h2 => ?_, fun co cn h1 h2 hne => ?_⟩
  · have hp : p ∈ old.map Prod.fst ++ new.map Prod.fst :=
      List.mem_append.mpr (Or.inr (lookupTree_mem_fst new p cn h2))
    have hf : filePatchFor old new p =
        some { fromFile := none, toFile := some p, chunks := chunksFor "" cn } := by
      simp [filePatchFor, h1, h2]
    exact List.mem_filterMap.mpr ⟨_, filePatchFor_mem old new p _ hp hf, rfl⟩
  · have hp : p ∈ old.map Prod.fst ++ new.map Prod.fst :=
      List.mem_append.mpr (Or.inl (lookupTree_mem_fst old p co h1))
    have hf : filePatchFor old new p =
        some { fromFile := some p, toFile := none, chunks := chunksFor co "" } := by
      simp [filePatchFor, h1, h2]
    exact List.mem_filterMap.mpr ⟨_, filePatchFor_mem old new p _ hp hf, rfl⟩
  · have hp : p ∈ old.map Prod.fst ++ new.map Prod.fst :=
      List.mem_append.mpr (Or.inl (lookupTree_mem_fst old p co h1))
    have hf : filePatchFor old new p =
        some { fromFile := some p, toFile := some p, chunks := chunksFor co cn } := by
      simp [filePatchFor, h1, h2, hne]
    exact List.mem_filterMap.mpr ⟨_, filePatchFor_mem old new p _ hp hf, rfl⟩

/-- Witness for C7 on concrete trees: an added, a deleted, and a modified
path are each classified as such. -/
theorem changedFiles_classification_witness :
    ({ path := "new.txt", changeType := "Added" } : GitFileChange) ∈ changedFiles oldT newT ∧
    ({ path := "gone.txt", changeType := "Deleted" } : GitFileChange) ∈ changedFiles oldT newT ∧
    ({ path := "keep.txt", changeType := "Modified" } : GitFileChange) ∈ changedFiles oldT newT :=
  ⟨(changedFiles_classification oldT newT "new.txt").1 "z\n" (by decide) (by decide),
   (changedFiles_classification oldT newT "gone.txt").2.1 "y\n" (by decide) (by decide),
   (changedFiles_classification oldT newT "keep.txt").2.2 "x\n" "x2\n" (by decide) (by decide)
     (by decide)⟩

/-! ## git-file-diff -/

/-- Counterexample to C3 as stated: the valid "no changes" result is not
distinguishable from a path that never existed — the handler returns the
identical non-error result for `b.txt` in a repository where `b.txt` exists
unchanged and in a repository whose history never contained `b.txt`. -/
theorem fileDiff_pathNotFound_conflated :
    gitFileDiffHandler wLog argsBD = gitFileDiffHandler wG argsBD ∧
    (gitFileDiffHandler wLog argsBD).1 =
      { content := "No changes found for file: b.txt", isError := false } ∧
    lookupTree d0.tree "b.txt" = some "x\n" ∧
    lookupTree d1.tree "b.txt" = some "x\n" ∧
    lookupTree dG0.tree "b.txt" = none ∧
    lookupTree dG1.tree "b.txt" = none := by
  refine ⟨?_, ?_, ?_, ?_, ?_, ?_⟩ <;> decide

/-- C3 (amended): a git-file-diff request whose path produces no chunk text
between the Nth ancestor and HEAD — whether the path is unaffected or never
existed at all — yields the same non-error "No changes found" result; the
implementation has no distinct `PathNotFound` outcome. -/
theorem gitFileDiff_noChanges (w : World) (r : Repo) (head anc : Commit)
    (args : Args) (fp : String)
    (hr : getRepository w = .ok r) (hh : r.headResult = .ok head)
    (hfp : getString args "file_path" = fp) (h0 : ¬(fp = ""))
    (ha : getCommitFromHead r (effectiveCommitsBack args) = .ok anc)
    (hempty : renderFileDiff (treePatch anc.data.tree head.data.tree) fp = "") :
    gitFileDiffHandler w args = okResult ("No changes found for file: " ++ fp) := by
  simp [gitFileDiffHandler, hfp, h0, hr, hh, ha, hempty]

/-- Witness for C3 amended: `b.txt` unchanged one commit back yields the
non-error "No changes found" result. -/
theorem gitFileDiff_noChanges_witness :
    gitFileDiffHandler wLog argsBD = okResult ("No changes found for file: " ++ "b.txt") :=
  gitFileDiff_noChanges wLog rW cHeadW (.root d0) argsBD "b.txt" rfl rfl rfl
    (by decide) rfl (by decide)

/-! ## git-file-history -/

theorem commitList_eq_cons (c : Commit) : ∃ t, commitList c = c :: t := by
  cases c <;> exact ⟨_, rfl⟩

theorem summaryBlock_length (c : Commit) : 0 < (summaryBlock c).data.length := by
  simp [summaryBlock, String.data_append, List.length_append]

theorem fileHistoryGo_ne_empty (fp : String) (prev : Option Commit)
    (c : Commit) (rest : List Commit) :
    fileHistoryGo fp prev (c :: rest) ≠ "" := by
  intro h
  have hd := congrArg (fun s => s.data.length) h
  have h0 : ("" : String).data.length = 0 := rfl
  simp only [fileHistoryGo, String.data_append, List.length_append, h0] at hd
  have := summaryBlock_length c
  omega

theorem fileHistoryGo_decomp (fp : String) (c : Commit) (l : List Commit)
    (prev : Option Commit) (h : c ∈ l) :
    ∃ s1 s2 : String, fileHistoryGo fp prev l = s1 ++ (summaryBlock c ++ s2) := by
  induction l generalizing prev with
  | nil => cases h
  | cons c' rest ih =>
    rcases List.mem_cons.mp h with rfl | hmem
    · refine ⟨"", (match prev with | none => "" | some p => diffBlock fp c p) ++
        fileHistoryGo fp (some c) rest, ?_⟩
      apply String.ext
      have h0 : ("" : String).data = [] := rfl
      simp [fileHistoryGo, String.data_append, List.append_assoc, h0]
    · obtain ⟨s1, s2, hs⟩ := ih (some c') hmem
      refine ⟨summaryBlock c' ++
        (match prev with | none => "" | some p => diffBlock fp c' p) ++ s1, s2, ?_⟩
      apply String.ext
      simp [fileHistoryGo, hs, String.data_append, List.append_assoc]

/-- Counterexample to C1 as stated: in the two-commit repository, `b.txt` did
not change at the HEAD commit relative to its predecessor (the patch between
the two trees has no entry for `b.txt`), yet the git-file-history output
still contains that commit's summary — commits in which the path did not
change are not skipped. -/
theorem fileHistory_no_skip :
    renderFileDiff (treePatch (Commit.root d0).data.tree cHeadW.data.tree) "b.txt" = "" ∧
    (gitFileHistoryHandler wLog argsBH).1.isError = false ∧
    containsStr ((gitFileHistoryHandler wLog argsBH).1.content)
      ("commit " ++ d1.hash) = true := by
  refine ⟨?_, ?_, ?_⟩ <;> decide

/-- C1 (amended): git-file-history emits the summary block of every commit
reachable from HEAD in first-parent iteration order, unconditionally —
commits where the path did not change are not skipped; a diff block for the
path follows a commit's summary only when a previously iterated (more
recent) commit exists and the path appears in the patch from the commit's
tree to that more recent commit's tree. -/
theorem gitFileHistory_output (w : World) (r : Repo) (head : Commit)
    (args : Args) (fp : String)
    (hr : getRepository w = .ok r) (hh : r.headResult = .ok head)
    (hfp : getString args "file_path" = fp) (h0 : ¬(fp = "")) :
    (gitFileHistoryHandler w args).2 = none ∧
    (gitFileHistoryHandler w args).1.isError = false ∧
    (gitFileHistoryHandler w args).1.content = fileHistoryGo fp none (commitList head) ∧
    ∀ c ∈ commitList head, ∃ s1 s2 : String,
      fileHistoryGo fp none (commitList head) = s1 ++ (summaryBlock c ++ s2) := by
  obtain ⟨t, ht⟩ := commitList_eq_cons head
  have hne : ¬(fileHistoryGo fp none (commitList head) = "") := by
    rw [ht]
    exact fileHistoryGo_ne_empty fp none head t
  have hh2 : gitFileHistoryHandler w args =
      okResult (fileHistoryGo fp none (commitList head)) := by
    simp [gitFileHistoryHandler, hfp, h0, hr, hh, hne]
  refine ⟨by rw [hh2]; rfl, by rw [hh2]; rfl, by rw [hh2]; rfl, ?_⟩
  intro c hc
  exact fileHistoryGo_decomp fp c (commitList head) none hc

/-- Witness for C1 amended on the two-commit repository. -/
theorem gitFileHistory_output_witness :
    (gitFileHistoryHandler wLog argsBH).1.isError = false ∧
    (gitFileHistoryHandler wLog argsBH).1.content =
      fileHistoryGo "b.txt" none (commitList cHeadW) := by
  have h := gitFileHistory_output wLog rW cHeadW argsBH "b.txt" rfl rfl rfl (by decide)
  exact ⟨h.2.1, h.2.2.1⟩

/-! ## In-band error reporting -/

theorem gitLogHandler_snd (w : World) (args : Args) : (gitLogHandler w args).2 = none := by
  simp only [gitLogHandler]
  repeat' split
  all_goals rfl

theorem gitChangedFilesHandler_snd (w : World) (args : Args) :
    (gitChangedFilesHandler w args).2 = none := by
  simp only [gitChangedFilesHandler]
  repeat' split
  all_goals rfl

theorem gitFileDiffHandler_snd (w : World) (args : Args) :
    (gitFileDiffHandler w args).2 = none := by
  simp only [gitFileDiffHandler]
  repeat' split
  all_goals rfl

theorem gitFileHistoryHandler_snd (w : World) (args : Args) :
    (gitFileHistoryHandler w args).2 = none := by
  simp only [gitFileHistoryHandler]
  repeat' split
  all_goals rfl

/-- C10: every registered handler always returns a nil Go-level error, and
each modelled failure — repository open, HEAD resolution, the first-parent
walk, and a missing `file_path` — is reported in-band as a result whose
`IsError` field is true. -/
theorem handlers_nil_error (w : World) (args : Args) :
    (gitLogHandler w args).2 = none ∧
    (gitChangedFilesHandler w args).2 = none ∧
    (gitFileDiffHandler w args).2 = none ∧
    (gitFileHistoryHandler w args).2 = none ∧
    (∀ e, w.openRepo (getRepositoryDir w.env) = .error e →
      (gitLogHandler w args).1.isError = true ∧
      (gitChangedFilesHandler w args).1.isError = true ∧
      (gitFileDiffHandler w args).1.isError = true ∧
      (gitFileHistoryHandler w args).1.isError = true) ∧
    (∀ r e, getRepository w = .ok r → r.headResult = .error e →
      (gitLogHandler w args).1.isError = true ∧
      (gitChangedFilesHandler w args).1.isError = true ∧
      (gitFileDiffHandler w args).1.isError = true ∧
      (gitFileHistoryHandler w args).1.isError = true) ∧
    (getString args "file_path" = "" →
      (gitFileDiffHandler w args).1.isError = true ∧
      (gitFileHistoryHandler w args).1.isError = true) ∧
    (∀ r head e, getRepository w = .ok r → r.headResult = .ok head →
      getCommitFromHead r (effectiveCommitsBack args) = .error e →
      (gitChangedFilesHandler w args).1.isError = true ∧
      (gitFileDiffHandler w args).1.isError = true) := by
  refine ⟨gitLogHandler_snd w args, gitChangedFilesHandler_snd w args,
    gitFileDiffHandler_snd w args, gitFileHistoryHandler_snd w args,
    fun e he => ⟨?_, ?_, ?_, ?_⟩, fun r e hr hh => ⟨?_, ?_, ?_, ?_⟩,
    fun hf => ⟨?_, ?_⟩, fun r head e hr hh hw => ⟨?_, ?_⟩⟩
  · simp [gitLogHandler, getRepository, he, errResult]
  · simp [gitChangedFilesHandler, getRepository, he, errResult]
  · by_cases hf : getString args "file_path" = "" <;>
      simp [gitFileDiffHandler, hf, getRepository, he, errResult]
  · by_cases hf : getString args "file_path" = "" <;>
      simp [gitFileHistoryHandler, hf, getRepository, he, errResult]
  · simp [gitLogHandler, hr, hh, errResult]
  · simp [gitChangedFilesHandler, hr, hh, errResult]
  · by_cases hf : getString args "file_path" = "" <;>
      simp [gitFileDiffHandler, hf, hr, hh, errResult]
  · by_cases hf : getString args "file_path" = "" <;>
      simp [gitFileHistoryHandler, hf, hr, hh, errResult]
  · simp [gitFileDiffHandler, hf, errResult]
  · simp [gitFileHistoryHandler, hf, errResult]
  · simp [gitChangedFilesHandler, hr, hh, hw, errResult]
  · by_cases hf : getString args "file_path" = "" <;>
      simp [gitFileDiffHandler, hf, hr, hh, hw, errResult]

/-- Witness for C10: concrete failing invocations — open failure, HEAD
failure, missing `file_path`, and a walk past the root — all return a nil Go
error together with an in-band `IsError` result. -/
theorem handlers_nil_error_witness :
    (gitLogHandler wBadOpen []).2 = none ∧
    (gitLogHandler wBadOpen []).1.isError = true ∧
    (gitChangedFilesHandler wNoHead []).1.isError = true ∧
    (gitFileDiffHandler wLog []).1.isError = true ∧
    (gitChangedFilesHandler wOne argsCB1).1.isError = true := by
  refine ⟨(handlers_nil_error wBadOpen []).1, ?_, ?_, ?_, ?_⟩
  · exact ((handlers_nil_error wBadOpen []).2.2.2.2.1 "repository does not exist" rfl).1
  · exact ((handlers_nil_error wNoHead []).2.2.2.2.2.1
      { headResult := .error "reference not found" } "reference not found" rfl rfl).2.1
  · exact ((handlers_nil_error wLog []).2.2.2.2.2.2.1 rfl).1
  · exact ((handlers_nil_error wOne argsCB1).2.2.2.2.2.2.2 rOne (.root d0)
      "reached root commit before going back 1 commits" rfl rfl rfl).1

end GitMcp
